import Mathlib

/-!
Shallow embedding of `plugin/completion.py` (LSP completion request
coordination for Sublime Text) and proofs about it.

The embedding models the completion data shapes (`CompletionItem`,
`CompletionList`, text edits), the pure helper `get_text_edit_range`, the
`QueryCompletionsTask` state machine (request registration, the all-of-N
merge `_resolve_completions_async`, `cancel_async`, and the write-once
`_resolve_task_async` latch), the resolve-docs rendering
`_handle_resolve_response_async`, and the one-shot
`LspCommitCompletionWithOppositeInsertMode.run` command.

Python dictionaries are modelled as association lists (insertion order for
iteration, key-based lookup); `weakref` resolution is modelled by passing
the resolution result (`Option Session`, or an aliveness predicate) at the
point of use; Sublime callbacks and session calls are modelled as an
explicit event trace.
-/

/-- A position in a document (LSP `Position`: line and character). -/
structure Position where
  line : Nat
  character : Nat
deriving DecidableEq, Repr

/-- An LSP `Range`. The `end` key is called `endPos` because `end` is a
reserved word in Lean. -/
structure Range where
  start : Position
  endPos : Position
deriving DecidableEq, Repr

/-- `MarkedString`/`MarkupContent`: documentation content is either a plain
string or a markup object with a kind and a value. -/
inductive DocContent
  | str (s : String)
  | markup (kind : String) (value : String)
deriving DecidableEq, Repr

/-- The markup kind string used for markdown content. -/
def MarkupKind.Markdown : String := "markdown"

/-- The union of `TextEdit` (`range` + `newText`) and `InsertReplaceEdit`
(`insert` + `replace` + `newText`), modelled as one record with optional
keys, because `get_text_edit_range` discriminates by key presence
(`'insert' in text_edit and 'replace' in text_edit`). -/
structure TextEditLike where
  range : Option Range := none
  insert : Option Range := none
  replace : Option Range := none
  newText : String := ""
deriving DecidableEq, Repr

/-- The numeric `CompletionItemKind.Snippet` constant from the LSP protocol. -/
def CompletionItemKind.Snippet : Nat := 15

/-- A raw completion entry as returned by a server. Only the fields read by
the verified functions are modelled; `label` is the one required field. -/
structure CompletionItem where
  label : String
  sortText : Option String := none
  kind : Option Nat := none
  detail : Option String := none
  documentation : Option DocContent := none
deriving DecidableEq, Repr

/-- A completion response: a bare list of items, a `CompletionList` object
(`items` plus `isIncomplete`), or `null`. -/
inductive CompletionResponse
  | list (items : List CompletionItem)
  | completionList (items : List CompletionItem) (isIncomplete : Bool)
  | null
deriving DecidableEq, Repr

/-- A server error object; `str(error)` is its message. -/
structure Error where
  message : String
deriving DecidableEq, Repr

/-- The session facts the completion code reads: `session.config.name` and
`session.has_capability('completionProvider.resolveProvider')`. -/
structure Session where
  name : String
  canResolveCompletionItems : Bool
deriving DecidableEq, Repr

/-- One settled per-session result fed into the all-of-N join: the response
or error, paired with the resolution of the weak session reference at merge
time (`none` models a vanished session). -/
abbrev ResponseOrError := CompletionResponse ⊕ Error

abbrev ResolvedCompletions := ResponseOrError × Option Session

/-- Modelled from the spec: `format_completion` (from `.core.views`, not
under `src/`) is the Item Formatter, "a pure function, no state" converting
a raw entry plus its index, the resolve capability, the session name and
the view id into a renderable row; we model the row as the tuple of those
arguments. -/
structure FormattedItem where
  item : CompletionItem
  index : Nat
  canResolveCompletionItems : Bool
  sessionName : String
  viewId : Nat
deriving DecidableEq, Repr

def format_completion (item : CompletionItem) (index : Nat)
    (canResolveCompletionItems : Bool) (sessionName : String) (viewId : Nat) :
    FormattedItem :=
  ⟨item, index, canResolveCompletionItems, sessionName, viewId⟩

/-- The user-configured `completion_insert_mode` preference. -/
inductive InsertMode
  | insert
  | replace
deriving DecidableEq, Repr

/-- The fields of `userprefs()` read by the completion code. -/
structure UserPrefs where
  inhibit_snippet_completions : Bool
  inhibit_word_completions : Bool
  completion_insert_mode : InsertMode
deriving DecidableEq, Repr

/-- The view settings read by `_resolve_completions_async`. -/
structure ViewSettings where
  auto_complete_include_snippets : Bool
  auto_complete_include_snippets_when_typing : Bool
deriving DecidableEq, Repr

/-- The ambient, per-task-constant inputs of a `QueryCompletionsTask`:
preferences, view settings, the manual-trigger flag and the view id. -/
structure TaskConfig where
  prefs : UserPrefs
  viewSettings : ViewSettings
  triggered_manually : Bool
  viewId : Nat
deriving DecidableEq, Repr

/-- Sublime completion-list flag constants used by the merge. -/
def INHIBIT_WORD_COMPLETIONS : Nat := 8

def INHIBIT_EXPLICIT_COMPLETIONS : Nat := 16

def DYNAMIC_COMPLETIONS : Nat := 32

def INHIBIT_REORDER : Nat := 128

/-! ## get_text_edit_range -/

/-- `get_text_edit_range`: for an insert/replace pair pick the range of the
configured insert mode, inverted while the one-shot opposite-mode flag is
active; otherwise return the plain edit's `range`. The global flag
`LspCommitCompletionWithOppositeInsertMode.active` and
`userprefs().completion_insert_mode` are passed as parameters. -/
def get_text_edit_range (active : Bool) (completion_insert_mode : InsertMode)
    (text_edit : TextEditLike) : Option Range :=
  if text_edit.insert.isSome && text_edit.replace.isSome then
    let insert_mode :=
      if active then
        match completion_insert_mode with
        | .insert => InsertMode.replace
        | .replace => InsertMode.insert
      else completion_insert_mode
    match insert_mode with
    | .insert => text_edit.insert
    | .replace => text_edit.replace
  else
    text_edit.range

/-! ## Sorting (Python `sorted` with the sortText-or-label key) -/

/-- Python string comparison: lexicographic on code points. -/
def charListLt : List Char → List Char → Bool
  | [], [] => false
  | [], _ :: _ => true
  | _ :: _, [] => false
  | a :: as, b :: bs =>
    if a.toNat < b.toNat then true
    else if b.toNat < a.toNat then false
    else charListLt as bs

def strLt (a b : String) : Bool := charListLt a.data b.data

/-- The sort key `item.get("sortText") or item["label"]`: the `or` falls
through to the label when `sortText` is absent or the empty string. -/
def sortKey (item : CompletionItem) : String :=
  match item.sortText with
  | some s => if s = "" then item.label else s
  | none => item.label

/-- The ordering used by `sorted(response_items, key=...)`: ascending, with
ties allowed (`a` may stay before `b` whenever `b`'s key is not strictly
below `a`'s). -/
def pySortRel (a b : CompletionItem) : Prop :=
  strLt (sortKey b) (sortKey a) = false

instance : DecidableRel pySortRel := fun a b => by
  unfold pySortRel; infer_instance

/-- Python's `sorted` is a stable ascending sort; insertion sort (inserting
each earlier element before the first later element it is `≤` to) computes
exactly the stable ascending reordering. -/
def pySorted (l : List CompletionItem) : List CompletionItem :=
  List.insertionSort pySortRel l

/-! ## The merge (`_resolve_completions_async`) -/

/-- `include_snippets` from lines 103-104. -/
def includeSnippets (cfg : TaskConfig) : Bool :=
  cfg.viewSettings.auto_complete_include_snippets &&
    (cfg.triggered_manually ||
      cfg.viewSettings.auto_complete_include_snippets_when_typing)

/-- Extraction of `response_items` from one response: `response["items"] or
[]` for a dict (identical to the items themselves for a list value), the
response itself for a bare list, and `[]` when the response is `None`. -/
def responseItemsOf : CompletionResponse → List CompletionItem
  | .list l => l
  | .completionList l _ => l
  | .null => []

/-- `response.get("isIncomplete", False)`. -/
def responseIsIncomplete : CompletionResponse → Bool
  | .completionList _ isIncomplete => isIncomplete
  | _ => false

/-- The snippet filter of line 126: keep an entry when snippets are included
or its kind is not `Snippet` (a missing kind never equals `Snippet`). -/
def keepEntry (include_snippets : Bool) (item : CompletionItem) : Bool :=
  include_snippets || item.kind != some CompletionItemKind.Snippet

/-- Lines 123-126: enumerate a session's sorted entries, drop filtered-out
snippet entries (after enumeration, so indices point into the full sorted
list), and format the survivors. -/
def formatSession (cfg : TaskConfig) (session : Session)
    (response_items : List CompletionItem) : List FormattedItem :=
  (response_items.enum.filter (fun p => keepEntry (includeSnippets cfg) p.2)).map
    (fun p => format_completion p.2 p.1 session.canResolveCompletionItems
      session.name cfg.viewId)

/-- Dictionary assignment `m[k] = v` on an association list: key-based
lookup sees the new value, other keys are untouched. -/
def dictSet (m : List (String × List CompletionItem)) (k : String)
    (v : List CompletionItem) : List (String × List CompletionItem) :=
  m.filter (fun p => p.1 != k) ++ [(k, v)]

/-- Dictionary lookup `m[k]` on an association list. -/
def dictGet (m : List (String × List CompletionItem)) (k : String) :
    Option (List CompletionItem) :=
  (m.find? (fun p => p.1 == k)).map (·.2)

/-- The loop state of `_resolve_completions_async`: collected formatted
items, collected errors, the flag bitmask, and the resolve cache
(`LspResolveDocsCommand.completions`) being rebuilt. -/
structure MergeAcc where
  items : List FormattedItem
  errors : List Error
  flags : Nat
  cache : List (String × List CompletionItem)
deriving DecidableEq, Repr

/-- One iteration of the response loop (lines 105-126): an error response
is collected; a response whose weak session no longer resolves is skipped;
otherwise the session's entries are extracted, sorted, cached under the
session name and formatted. -/
def processResponse (cfg : TaskConfig) (acc : MergeAcc) :
    ResolvedCompletions → MergeAcc
  | (.inr e, _) => { acc with errors := acc.errors ++ [e] }
  | (.inl _, none) => acc
  | (.inl r, some session) =>
    let response_items := pySorted (responseItemsOf r)
    { acc with
      flags := if responseIsIncomplete r then acc.flags ||| DYNAMIC_COMPLETIONS
               else acc.flags
      cache := dictSet acc.cache session.name response_items
      items := acc.items ++ formatSession cfg session response_items }

def processResponses (cfg : TaskConfig) :
    MergeAcc → List ResolvedCompletions → MergeAcc
  | acc, [] => acc
  | acc, r :: rs => processResponses cfg (processResponse cfg acc r) rs

/-- Lines 96-101: the initial flag bitmask from the user preferences. -/
def initFlags (prefs : UserPrefs) : Nat :=
  (if prefs.inhibit_snippet_completions then INHIBIT_EXPLICIT_COMPLETIONS else 0) |||
    (if prefs.inhibit_word_completions then INHIBIT_WORD_COMPLETIONS else 0)

/-- The whole response loop starting from the empty accumulator (the cache
is reset to `{}` on line 93 before the loop). -/
def mergeAcc (cfg : TaskConfig) (responses : List ResolvedCompletions) :
    MergeAcc :=
  processResponses cfg
    { items := [], errors := [], flags := initFlags cfg.prefs, cache := [] }
    responses

/-- The item list delivered by the merge. -/
def mergedItems (cfg : TaskConfig) (responses : List ResolvedCompletions) :
    List FormattedItem :=
  (mergeAcc cfg responses).items

/-- The flag bitmask delivered by the merge; lines 127-128 add
`INHIBIT_REORDER` exactly when some items survived. -/
def mergedFlags (cfg : TaskConfig) (responses : List ResolvedCompletions) : Nat :=
  let acc := mergeAcc cfg responses
  if acc.items.isEmpty then acc.flags else acc.flags ||| INHIBIT_REORDER

/-- The resolve cache written by the merge. -/
def mergedCache (cfg : TaskConfig) (responses : List ResolvedCompletions) :
    List (String × List CompletionItem) :=
  (mergeAcc cfg responses).cache

/-! ## The task state machine -/

/-- The mutable state of a `QueryCompletionsTask`, together with the
process-wide resolve cache `LspResolveDocsCommand.completions` it writes.
The pending-request dictionary maps request ids to (weak references to)
sessions, in insertion order. -/
structure TaskState where
  resolved : Bool
  pending_completion_requests : List (Nat × Session)
  completionsCache : List (String × List CompletionItem)
deriving DecidableEq, Repr

/-- The freshly constructed task state (`__init__`, lines 69-70). -/
def initialTaskState : TaskState :=
  { resolved := false, pending_completion_requests := [], completionsCache := [] }

/-- Observable calls the task makes to its collaborators. -/
inductive Ev
  | on_done (items : List FormattedItem) (flags : Nat)
  | cancel_request (sessionName : String) (request_id : Nat) (notifyServer : Bool)
  | status_message (msg : String)
  | pop_pending (request_id : Nat) (found : Bool)
deriving DecidableEq, Repr

/-- `_resolve_task_async` (lines 145-148): the write-once latch; fires the
`on_done_async` callback only on the first call. -/
def resolve_task_async (completions : List FormattedItem) (flags : Nat)
    (st : TaskState) : TaskState × List Ev :=
  if st.resolved then (st, [])
  else ({ st with resolved := true }, [Ev.on_done completions flags])

/-- `_resolve_completions_async` (lines 90-132): bail out if already
resolved; otherwise rebuild the resolve cache, merge the responses, emit a
single combined status message when any errors were collected, and resolve
the task with the merged items and flags. -/
def resolve_completions_async (cfg : TaskConfig)
    (responses : List ResolvedCompletions) (st : TaskState) :
    TaskState × List Ev :=
  if st.resolved then (st, [])
  else
    let acc := mergeAcc cfg responses
    let statusEvs :=
      if acc.errors.isEmpty then ([] : List Ev)
      else [Ev.status_message ("Completion error: " ++
        String.intercalate ", " (acc.errors.map Error.message))]
    let st1 := { st with completionsCache := acc.cache }
    let done := resolve_task_async (mergedItems cfg responses)
      (mergedFlags cfg responses) st1
    (done.1, statusEvs ++ done.2)

/-- `_cancel_pending_requests_async` (lines 138-143): iterate the pending
map in insertion order, call `cancel_request` on each session whose weak
reference still resolves (the `alive` predicate models resolution at call
time), then clear the map. -/
def cancel_pending_requests_async (alive : Session → Bool) (st : TaskState) :
    TaskState × List Ev :=
  ({ st with pending_completion_requests := [] },
    (st.pending_completion_requests.filter (fun p => alive p.2)).map
      (fun p => Ev.cancel_request p.2.name p.1 false))

/-- `cancel_async` (lines 134-136): resolve with the empty list (default
flags 0), then cancel the pending requests. -/
def cancel_async (alive : Session → Bool) (st : TaskState) :
    TaskState × List Ev :=
  let done := resolve_task_async [] 0 st
  let cancelled := cancel_pending_requests_async alive done.1
  (cancelled.1, done.2 ++ cancelled.2)

/-- `_on_completion_response_async` (lines 84-88): pop the request id from
the pending map (recording whether it was present, as `dict.pop(id, None)`
observes) before the response value flows into the join. -/
def on_completion_response_async (request_id : Nat) (st : TaskState) :
    TaskState × List Ev :=
  let found := st.pending_completion_requests.any (fun p => p.1 == request_id)
  ({ st with pending_completion_requests :=
      st.pending_completion_requests.filter (fun p => p.1 != request_id) },
    [Ev.pop_pending request_id found])

/-- `_create_completion_request_async` (lines 76-82): dispatch the request
(the session layer supplies `request_id`), register the id in the pending
map, and only then attach the response continuation on line 82.
`syncResponse` models a promise that was already settled when the
continuation was attached — the continuation then runs inside this very
call, after the registration. -/
def create_completion_request_async (session : Session) (request_id : Nat)
    (syncResponse : Option CompletionResponse) (st : TaskState) :
    TaskState × List Ev :=
  let st1 := { st with pending_completion_requests :=
    st.pending_completion_requests ++ [(request_id, session)] }
  match syncResponse with
  | none => (st1, [])
  | some _ => on_completion_response_async request_id st1

/-- An externally scheduled event hitting the task: a cancellation (with
the weak-reference resolutions at that time) or the all-of-N join firing
with the collected responses. -/
inductive TaskAction
  | cancel (alive : Session → Bool)
  | responsesArrived (responses : List ResolvedCompletions)

def stepTask (cfg : TaskConfig) (st : TaskState) : TaskAction → TaskState × List Ev
  | .cancel alive => cancel_async alive st
  | .responsesArrived responses => resolve_completions_async cfg responses st

/-- Run an arbitrary interleaving of cancellations and join completions,
concatenating the event traces. -/
def runTask (cfg : TaskConfig) (st : TaskState) :
    List TaskAction → TaskState × List Ev
  | [] => (st, [])
  | a :: as =>
    let s1 := stepTask cfg st a
    let s2 := runTask cfg s1.1 as
    (s2.1, s1.2 ++ s2.2)

/-- The `on_done_async` invocations in an event trace. -/
def callbackEvents (evs : List Ev) : List (List FormattedItem × Nat) :=
  evs.filterMap (fun e => match e with
    | .on_done items flags => some (items, flags)
    | _ => none)

/-! ## The resolve-docs handler -/

/-- Modelled from the spec: `minihtml` (from `.core.views`, not under
`src/`) "renders detail/documentation text as a simple markup string"; we
model it as returning the text content: a plain string itself, a markup
object its value. -/
def minihtml : DocContent → String
  | .str s => s
  | .markup _ value => value

/-- `_format_documentation` (lines 201-206) forwards the content to
`minihtml` with `FORMAT_STRING | FORMAT_MARKUP_CONTENT`. -/
def format_documentation (content : DocContent) : String :=
  minihtml content

/-- Line 174: `item.get('detail') or ""` rendered; the empty string when
the item itself is falsy. -/
def renderedDetail (item : Option CompletionItem) : String :=
  match item with
  | some it => format_documentation (.str (it.detail.getD ""))
  | none => ""

/-- Line 175: `item.get("documentation") or ""` rendered; the empty string
when the item itself is falsy. -/
def renderedDocumentation (item : Option CompletionItem) : String :=
  match item with
  | some it =>
    match it.documentation with
    | some d => format_documentation d
    | none => format_documentation (.str "")
  | none => ""

/-- `_handle_resolve_response_async` (lines 170-184), returning the
`minihtml_content` string and whether the fallback branch on line 176 ran.
The fallback replaces the documentation exactly when the rendered
documentation is empty; the rendered detail is not consulted. -/
def handle_resolve_response_async (item : Option CompletionItem) :
    String × Bool :=
  let detail := renderedDetail item
  let documentation := renderedDocumentation item
  let withFallback :=
    if documentation = "" then
      (format_documentation
        (.markup MarkupKind.Markdown "*No documentation available.*"), true)
    else (documentation, false)
  let minihtml_content :=
    (if detail ≠ "" then "<div class=\x27highlight\x27>" ++ detail ++ "</div>"
     else "") ++
    (if withFallback.1 ≠ "" then withFallback.1 else "")
  (minihtml_content, withFallback.2)

/-! ## The opposite-insert-mode commit command -/

/-- The state touched by `LspCommitCompletionWithOppositeInsertMode.run`:
the class-level one-shot `active` flag, plus an abstract view state. -/
structure OppositeModeState (V : Type) where
  active : Bool
  view : V

/-- `LspCommitCompletionWithOppositeInsertMode.run` (lines 215-218): set
the class flag, run the `commit_completion` command (which observes the
flag and transforms the view — succeeding or failing internally; Sublime's
`run_command` returns either way), then clear the flag. -/
def LspCommitCompletionWithOppositeInsertMode.run {V : Type}
    (commit_completion : Bool → V → V) (s : OppositeModeState V) :
    OppositeModeState V :=
  let s1 : OppositeModeState V := { s with active := true }
  let v1 := commit_completion s1.active s1.view
  { active := false, view := v1 }

/-! ## Derived observations used in theorem statements -/

/-- The errors contained in a response list, in order. -/
def errorsOf (responses : List ResolvedCompletions) : List Error :=
  responses.filterMap (fun r => match r.1 with
    | .inr e => some e
    | .inl _ => none)

/-- The formatted items one settled response contributes to the merge:
nothing for an error or a vanished session. -/
def sessionItemsOf (cfg : TaskConfig) : ResolvedCompletions → List FormattedItem
  | (.inl r, some session) => formatSession cfg session (pySorted (responseItemsOf r))
  | _ => []

/-- The names of the sessions that actually contribute (successful response
and still-alive weak reference), in order. -/
def okSessionNames (responses : List ResolvedCompletions) : List String :=
  responses.filterMap (fun r => match r with
    | (.inl _, some session) => some session.name
    | _ => none)

/-- `LspResolveDocsCommand.run` line 158:
`self.completions[session_name][index]`. -/
def lspResolveDocsLookup (cache : List (String × List CompletionItem))
    (session_name : String) (index : Nat) : Option CompletionItem :=
  (dictGet cache session_name).bind (fun l => l.get? index)

/-! ## Concrete inputs used by witnesses and examples -/

/-- A session that advertises `completionProvider.resolveProvider`. -/
def sessW : Session := ⟨"srv", true⟩

/-- A session whose weak reference is dead at cancellation time. -/
def deadW : Session := ⟨"gone", false⟩

/-- Aliveness at cancellation time: `sessW` resolves, `deadW` does not. -/
def aliveW : Session → Bool := fun s => s.name != "gone"

def prefsW : UserPrefs :=
  { inhibit_snippet_completions := false
    inhibit_word_completions := false
    completion_insert_mode := InsertMode.insert }

/-- A while-typing task: snippets are included in general but not while
typing, and the trigger was not manual. -/
def cfgW : TaskConfig :=
  { prefs := prefsW
    viewSettings := ⟨true, false⟩
    triggered_manually := false
    viewId := 7 }

/-- An entry with sort text `"b"`. -/
def itemSortB : CompletionItem := { label := "x1", sortText := some "b" }

/-- An entry with sort text `"a"`. -/
def itemSortA : CompletionItem := { label := "x2", sortText := some "a" }

/-- An entry with no sort text and label `"c"`. -/
def itemLabelC : CompletionItem := { label := "c" }

/-- A snippet-kind entry whose sort text places it first. -/
def itemSnipA : CompletionItem :=
  { label := "snip", sortText := some "a", kind := some CompletionItemKind.Snippet }

/-- An entry with a non-empty detail and no documentation. -/
def c9item : CompletionItem := { label := "x", detail := some "foo" }

def rangeIns : Range := ⟨⟨0, 0⟩, ⟨0, 4⟩⟩

def rangeRep : Range := ⟨⟨0, 0⟩, ⟨0, 7⟩⟩

def teBoth : TextEditLike := { insert := some rangeIns, replace := some rangeRep }

/-- A task state with one live and one vanished pending request. -/
def stW : TaskState :=
  { resolved := false
    pending_completion_requests := [(1, sessW), (2, deadW)]
    completionsCache := [] }

/-- A response mix: one error, one successful session. -/
def respsW : List ResolvedCompletions :=
  [(Sum.inr ⟨"boom"⟩, some deadW),
   (Sum.inl (CompletionResponse.list [itemSnipA, itemSortB, itemLabelC]), some sessW)]

/-! # Theorems -/

/-! ## Helper lemmas about the string order -/

theorem charListLt_irrefl (l : List Char) : charListLt l l = false := by
  induction l with
  | nil => rfl
  | cons a as ih => simp [charListLt, ih]

theorem charListLt_asymm :
    ∀ (a b : List Char), charListLt a b = true → charListLt b a = false := by
  intro a
  induction a with
  | nil =>
    intro b h
    cases b with
    | nil => rfl
    | cons y ys => rfl
  | cons x xs ih =>
    intro b h
    cases b with
    | nil => simp [charListLt] at h
    | cons y ys =>
      simp only [charListLt] at h ⊢
      by_cases h1 : x.toNat < y.toNat
      · have h2 : ¬ y.toNat < x.toNat := by omega
        simp [h1, h2]
      · by_cases h2 : y.toNat < x.toNat
        · simp [h1, h2] at h
        · simp only [h1, h2, if_false] at h ⊢
          exact ih ys h

theorem charListLt_comparison :
    ∀ (c a b : List Char), charListLt c a = true →
      charListLt c b = true ∨ charListLt b a = true := by
  intro c
  induction c with
  | nil =>
    intro a b h
    cases a with
    | nil => simp [charListLt] at h
    | cons y ys =>
      cases b with
      | nil => right; simp [charListLt]
      | cons z zs => left; simp [charListLt]
  | cons x xs ih =>
    intro a b h
    cases a with
    | nil => simp [charListLt] at h
    | cons y ys =>
      cases b with
      | nil => right; simp [charListLt]
      | cons z zs =>
        simp only [charListLt] at h ⊢
        by_cases hxz : x.toNat < z.toNat
        · left; simp [hxz]
        · by_cases hzx : z.toNat < x.toNat
          · right
            by_cases hxy : x.toNat < y.toNat
            · have hzy : z.toNat < y.toNat := by omega
              simp [hzy]
            · by_cases hyx : y.toNat < x.toNat
              · simp [hxy, hyx] at h
              · have hzy : z.toNat < y.toNat := by omega
                simp [hzy]
          · by_cases hxy : x.toNat < y.toNat
            · right
              have hzy : z.toNat < y.toNat := by omega
              simp [hzy]
            · by_cases hyx : y.toNat < x.toNat
              · simp [hxy, hyx] at h
              · simp only [hxy, hyx, if_false] at h
                rcases ih ys zs h with h1 | h1
                · left; simp [hxz, hzx, h1]
                · right
                  have hzy : ¬ z.toNat < y.toNat := by omega
                  have hyz : ¬ y.toNat < z.toNat := by omega
                  simp [hzy, hyz, h1]

theorem strLt_irrefl (s : String) : strLt s s = false :=
  charListLt_irrefl s.data

theorem strLt_asymm {a b : String} (h : strLt a b = true) : strLt b a = false :=
  charListLt_asymm a.data b.data h

theorem strLt_comparison (c a b : String) (h : strLt c a = true) :
    strLt c b = true ∨ strLt b a = true :=
  charListLt_comparison c.data a.data b.data h

instance : IsTotal CompletionItem pySortRel :=
  ⟨by
    intro a b
    unfold pySortRel
    cases hv : strLt (sortKey b) (sortKey a) with
    | false => left; rfl
    | true => right; exact strLt_asymm hv⟩

instance : IsTrans CompletionItem pySortRel :=
  ⟨by
    intro a b c hab hbc
    unfold pySortRel at hab hbc ⊢
    cases hv : strLt (sortKey c) (sortKey a) with
    | false => rfl
    | true =>
      rcases strLt_comparison (sortKey c) (sortKey a) (sortKey b) hv with h1 | h1
      · rw [hbc] at h1; exact absurd h1 (by simp)
      · rw [hab] at h1; exact absurd h1 (by simp)⟩

/-- Stability of the per-session sort: restricted to the entries with any
given key, `pySorted` is the identity. -/
theorem pySorted_filter_key (l : List CompletionItem) (k : String) :
    (pySorted l).filter (fun it => sortKey it == k) =
      l.filter (fun it => sortKey it == k) := by
  have hpw : (l.filter (fun it => sortKey it == k)).Pairwise pySortRel := by
    apply List.pairwise_of_forall_mem_list
    intro a ha b hb
    have ha3 : sortKey a = k := by simpa using (List.mem_filter.mp ha).2
    have hb3 : sortKey b = k := by simpa using (List.mem_filter.mp hb).2
    unfold pySortRel
    rw [hb3, ha3]
    exact strLt_irrefl k
  have hsub : (l.filter (fun it => sortKey it == k)).Sublist (pySorted l) :=
    List.sublist_insertionSort hpw (List.filter_sublist l)
  have hsub2 :
      ((l.filter (fun it => sortKey it == k)).filter
          (fun it => sortKey it == k)).Sublist
        ((pySorted l).filter (fun it => sortKey it == k)) :=
    hsub.filter _
  have hidem :
      (l.filter (fun it => sortKey it == k)).filter (fun it => sortKey it == k) =
        l.filter (fun it => sortKey it == k) := by
    rw [List.filter_filter]
    simp only [Bool.and_self]
  rw [hidem] at hsub2
  have hperm :
      ((pySorted l).filter (fun it => sortKey it == k)).Perm
        (l.filter (fun it => sortKey it == k)) :=
    (List.perm_insertionSort pySortRel l).filter _
  exact (hsub2.eq_of_length hperm.length_eq.symm).symm

/-! ## C4: per-session stable ascending sort -/

/-- C4: During merge each session's entries are sorted per-session by the
sortText-else-label key: the sort is a permutation, ascending in the key,
stable (entries with equal keys keep their server order), the merge applies
it to one session's own entries only, and on the example — sortText `"b"`,
sortText `"a"`, and a third entry with no sortText and label `"c"` — the
order within the session is `a, b, c`. -/
theorem c4_per_session_stable_sort (cfg : TaskConfig) (l : List CompletionItem)
    (r : CompletionResponse) (session : Session) :
    (pySorted l).Perm l ∧
    List.Pairwise pySortRel (pySorted l) ∧
    (∀ k : String, (pySorted l).filter (fun it => sortKey it == k) =
      l.filter (fun it => sortKey it == k)) ∧
    mergedItems cfg [(Sum.inl r, some session)] =
      formatSession cfg session (pySorted (responseItemsOf r)) ∧
    pySorted [itemSortB, itemSortA, itemLabelC] =
      [itemSortA, itemSortB, itemLabelC] := by
  refine ⟨List.perm_insertionSort pySortRel l,
    List.sorted_insertionSort pySortRel l,
    fun k => pySorted_filter_key l k, ?_, by decide⟩
  simp [mergedItems, mergeAcc, processResponses, processResponse]

/-! ## C6: edit-range selection -/

/-- C6: `get_text_edit_range` is a pure selection: on an insert/replace
pair it returns the range named by the configured insert mode, with the
choice inverted exactly while the one-shot opposite-mode flag is active;
on a single replace-range edit it returns that edit's `range`
unconditionally. -/
theorem c6_get_text_edit_range_selection (te : TextEditLike) (ri rr : Range)
    (h1 : te.insert = some ri) (h2 : te.replace = some rr) :
    (get_text_edit_range false InsertMode.insert te = some ri ∧
     get_text_edit_range true InsertMode.insert te = some rr ∧
     get_text_edit_range false InsertMode.replace te = some rr ∧
     get_text_edit_range true InsertMode.replace te = some ri) ∧
    ∀ (te2 : TextEditLike) (active : Bool) (mode : InsertMode),
      te2.insert = none ∨ te2.replace = none →
        get_text_edit_range active mode te2 = te2.range := by
  constructor
  · refine ⟨?_, ?_, ?_, ?_⟩ <;> simp [get_text_edit_range, h1, h2]
  · intro te2 active mode h
    rcases h with h | h <;> simp [get_text_edit_range, h]

/-- Witness for C6 at a concrete insert/replace pair. -/
theorem c6_get_text_edit_range_selection_witness :
    (teBoth.insert = some rangeIns ∧ teBoth.replace = some rangeRep) ∧
    get_text_edit_range true InsertMode.insert teBoth = some rangeRep :=
  ⟨⟨rfl, rfl⟩,
    ((c6_get_text_edit_range_selection teBoth rangeIns rangeRep rfl rfl).1).2.1⟩

/-! ## C8: the opposite-insert-mode flag is a one-shot -/

/-- C8: `LspCommitCompletionWithOppositeInsertMode.run` sets the flag only
for the duration of the single commit action — the commit observes the flag
as `true` — and the flag is `false` again after the run, whatever the
commit did to the view (success or failure). -/
theorem c8_opposite_mode_flag_one_shot {V : Type}
    (commit_completion : Bool → V → V) (s : OppositeModeState V) :
    (LspCommitCompletionWithOppositeInsertMode.run commit_completion s).active =
      false ∧
    (LspCommitCompletionWithOppositeInsertMode.run commit_completion s).view =
      commit_completion true s.view :=
  ⟨rfl, rfl⟩

/-! ## C9: the documentation fallback condition -/

/-- C9 counterexample: for an item with non-empty detail `"foo"` and empty
documentation, the handler still uses the `*No documentation available.*`
fallback, so "fallback exactly when both detail and documentation are
empty" is false at this input. -/
theorem c9_counterexample :
    ¬ (((handle_resolve_response_async (some c9item)).2 = true) ↔
      (renderedDetail (some c9item) = "" ∧
        renderedDocumentation (some c9item) = "")) := by
  decide

/-- C9 amended: the resolve-panel handler falls back to the fixed
"No documentation available." string exactly when the item's rendered
documentation is empty — the item's detail is not consulted, so a non-empty
detail does not suppress the fallback. -/
theorem c9_fallback_iff_documentation_empty (item : Option CompletionItem) :
    (handle_resolve_response_async item).2 = true ↔
      renderedDocumentation item = "" := by
  by_cases h : renderedDocumentation item = "" <;>
    simp [handle_resolve_response_async, h]

/-! ## C5: the snippet filter -/

/-- C5: with snippet inclusion enabled but inclusion-while-typing disabled,
a manually triggered task keeps snippet-kind entries while a non-manual one
drops exactly the snippet-kind entries, and an entry whose kind is not
`Snippet` is never excluded by this filter under any configuration. -/
theorem c5_snippet_filter (prefs : UserPrefs) (viewId : Nat) (session : Session)
    (l : List CompletionItem) (item : CompletionItem)
    (hkind : item.kind ≠ some CompletionItemKind.Snippet) :
    (formatSession
        { prefs := prefs, viewSettings := ⟨true, false⟩,
          triggered_manually := true, viewId := viewId } session l =
      l.enum.map (fun p => format_completion p.2 p.1
        session.canResolveCompletionItems session.name viewId)) ∧
    (formatSession
        { prefs := prefs, viewSettings := ⟨true, false⟩,
          triggered_manually := false, viewId := viewId } session l =
      (l.enum.filter
          (fun p => p.2.kind != some CompletionItemKind.Snippet)).map
        (fun p => format_completion p.2 p.1
          session.canResolveCompletionItems session.name viewId)) ∧
    ∀ cfg : TaskConfig, keepEntry (includeSnippets cfg) item = true := by
  refine ⟨?_, ?_, ?_⟩
  · simp [formatSession, includeSnippets, keepEntry, List.filter_true]
  · simp [formatSession, includeSnippets, keepEntry]
  · intro cfg
    simp [keepEntry, hkind]

/-- Witness for C5: the non-snippet entry `itemLabelC` passes the filter
even in the while-typing configuration that drops snippets. -/
theorem c5_snippet_filter_witness :
    itemLabelC.kind ≠ some CompletionItemKind.Snippet ∧
    keepEntry (includeSnippets cfgW) itemLabelC = true :=
  ⟨by decide,
    (c5_snippet_filter prefsW 7 sessW [] itemLabelC (by decide)).2.2 cfgW⟩

/-! ## C2: cancellation behaviour -/

/-- C2: on a not-yet-resolved task, `cancel_async` first fires the callback
with the empty item list and flags 0, then — in pending-map order — calls
`cancel_request` with the request id of every entry whose weak session
still resolves, skipping vanished sessions, and finally leaves the
pending-request map empty. -/
theorem c2_cancel_empties_pending (alive : Session → Bool) (st : TaskState)
    (h : st.resolved = false) :
    (cancel_async alive st).2 =
      Ev.on_done [] 0 ::
        (st.pending_completion_requests.filter (fun p => alive p.2)).map
          (fun p => Ev.cancel_request p.2.name p.1 false) ∧
    (cancel_async alive st).1.pending_completion_requests = [] := by
  simp [cancel_async, resolve_task_async, h, cancel_pending_requests_async]

/-- Witness for C2 on a task with one live and one vanished pending
request: the callback fires with the empty result, only the live session's
request is cancelled, and the map is cleared. -/
theorem c2_cancel_empties_pending_witness :
    stW.resolved = false ∧
    ((cancel_async aliveW stW).2 =
      Ev.on_done [] 0 ::
        (stW.pending_completion_requests.filter (fun p => aliveW p.2)).map
          (fun p => Ev.cancel_request p.2.name p.1 false) ∧
    (cancel_async aliveW stW).1.pending_completion_requests = []) :=
  ⟨rfl, c2_cancel_empties_pending aliveW stW rfl⟩

/-! ## Helper lemmas about the task state machine -/

theorem callbackEvents_append (evs1 evs2 : List Ev) :
    callbackEvents (evs1 ++ evs2) = callbackEvents evs1 ++ callbackEvents evs2 :=
  List.filterMap_append evs1 evs2 _

theorem callbackEvents_cancelRequests (alive : Session → Bool)
    (l : List (Nat × Session)) :
    callbackEvents ((l.filter (fun p => alive p.2)).map
      (fun p => Ev.cancel_request p.2.name p.1 false)) = [] := by
  induction l with
  | nil => rfl
  | cons p ps ih =>
    by_cases hp : alive p.2 = true
    · simp [List.filter_cons, hp, callbackEvents, ih]
    · simp [List.filter_cons, hp, ih]

theorem stepTask_unresolved_sets_resolved (cfg : TaskConfig) (st : TaskState)
    (a : TaskAction) (h : st.resolved = false) :
    (stepTask cfg st a).1.resolved = true := by
  cases a with
  | cancel alive =>
    simp [stepTask, cancel_async, resolve_task_async, h,
      cancel_pending_requests_async]
  | responsesArrived rs =>
    simp [stepTask, resolve_completions_async, h, resolve_task_async]

theorem stepTask_resolved_noop (cfg : TaskConfig) (st : TaskState)
    (a : TaskAction) (h : st.resolved = true) :
    (stepTask cfg st a).1.resolved = true ∧
      callbackEvents (stepTask cfg st a).2 = [] := by
  cases a with
  | cancel alive =>
    constructor
    · simp [stepTask, cancel_async, resolve_task_async, h,
        cancel_pending_requests_async]
    · simp only [stepTask, cancel_async, resolve_task_async, h, if_true]
      simp [cancel_pending_requests_async, callbackEvents_append,
        callbackEvents_cancelRequests]
  | responsesArrived rs =>
    constructor
    · simp [stepTask, resolve_completions_async, h]
    · simp [stepTask, resolve_completions_async, h, callbackEvents]

theorem stepTask_unresolved_callbacks (cfg : TaskConfig) (st : TaskState)
    (h : st.resolved = false) :
    (∀ alive, callbackEvents (stepTask cfg st (TaskAction.cancel alive)).2 =
      [([], 0)]) ∧
    ∀ rs, callbackEvents (stepTask cfg st (TaskAction.responsesArrived rs)).2 =
      [(mergedItems cfg rs, mergedFlags cfg rs)] := by
  constructor
  · intro alive
    simp only [stepTask, cancel_async, resolve_task_async, h, if_false,
      cancel_pending_requests_async]
    simp [callbackEvents_append, callbackEvents, callbackEvents_cancelRequests]
  · intro rs
    simp only [stepTask, resolve_completions_async, h, if_false,
      resolve_task_async]
    by_cases he : (mergeAcc cfg rs).errors.isEmpty = true <;>
      simp [he, callbackEvents_append, callbackEvents]

theorem runTask_resolved_no_callbacks (cfg : TaskConfig) (acts : List TaskAction) :
    ∀ st : TaskState, st.resolved = true →
      callbackEvents (runTask cfg st acts).2 = [] := by
  induction acts with
  | nil => intro st _; rfl
  | cons a as ih =>
    intro st h
    have hstep := stepTask_resolved_noop cfg st a h
    simp [runTask, callbackEvents_append, hstep.2, ih _ hstep.1]

/-! ## C1: the callback fires exactly once -/

/-- C1: starting from a not-yet-resolved task, any nonempty interleaving of
cancellations and join completions invokes `on_done_async` exactly once;
the whole run's callback trace equals that of the first event alone (so a
late join completion neither re-invokes the callback nor alters the
delivered result), and the single delivery is `([], 0)` when the first
event is a cancellation and the merged `(items, flags)` when it is the
join. -/
theorem c1_on_done_exactly_once (cfg : TaskConfig) (st : TaskState)
    (a : TaskAction) (acts : List TaskAction) (h : st.resolved = false) :
    (callbackEvents (runTask cfg st (a :: acts)).2).length = 1 ∧
    callbackEvents (runTask cfg st (a :: acts)).2 =
      callbackEvents (stepTask cfg st a).2 ∧
    (∀ alive, a = TaskAction.cancel alive →
      callbackEvents (stepTask cfg st a).2 = [([], 0)]) ∧
    ∀ rs, a = TaskAction.responsesArrived rs →
      callbackEvents (stepTask cfg st a).2 =
        [(mergedItems cfg rs, mergedFlags cfg rs)] := by
  have hstep1 := stepTask_unresolved_sets_resolved cfg st a h
  have hrest := runTask_resolved_no_callbacks cfg acts (stepTask cfg st a).1 hstep1
  have hdecomp : callbackEvents (runTask cfg st (a :: acts)).2 =
      callbackEvents (stepTask cfg st a).2 := by
    simp [runTask, callbackEvents_append, hrest]
  refine ⟨?_, hdecomp, ?_, ?_⟩
  · rw [hdecomp]
    cases a with
    | cancel alive =>
      rw [(stepTask_unresolved_callbacks cfg st h).1 alive]; rfl
    | responsesArrived rs =>
      rw [(stepTask_unresolved_callbacks cfg st h).2 rs]; rfl
  · intro alive ha
    subst ha
    exact (stepTask_unresolved_callbacks cfg st h).1 alive
  · intro rs ha
    subst ha
    exact (stepTask_unresolved_callbacks cfg st h).2 rs

/-- Witness for C1: a join completion followed by a cancellation and a
second join completion still yields exactly one callback. -/
theorem c1_on_done_exactly_once_witness :
    initialTaskState.resolved = false ∧
    (callbackEvents (runTask cfgW initialTaskState
      (TaskAction.responsesArrived respsW ::
        [TaskAction.cancel aliveW, TaskAction.responsesArrived respsW])).2).length
      = 1 :=
  ⟨rfl, (c1_on_done_exactly_once cfgW initialTaskState
    (TaskAction.responsesArrived respsW)
    [TaskAction.cancel aliveW, TaskAction.responsesArrived respsW] rfl).1⟩

/-! ## C3: registration precedes the continuation -/

theorem resolve_task_async_pending (completions : List FormattedItem)
    (flags : Nat) (st : TaskState) :
    (resolve_task_async completions flags st).1.pending_completion_requests =
      st.pending_completion_requests := by
  by_cases h : st.resolved <;> simp [resolve_task_async, h]

/-- C3: `_create_completion_request_async` registers the request id in the
pending map before it returns and before the response continuation is
attached: with no synchronous response the entry is in the map on return
(so a cancellation running any time after dispatch emits a
`cancel_request` for it while the session is alive), and if the response
arrives synchronously with the dispatch, the continuation's pop finds the
freshly registered entry and leaves no stale entry behind. -/
theorem c3_register_before_continuation (session : Session) (request_id : Nat)
    (syncResponse : Option CompletionResponse) (st : TaskState)
    (hfresh : ∀ p ∈ st.pending_completion_requests, p.1 ≠ request_id) :
    (create_completion_request_async session request_id none
        st).1.pending_completion_requests =
      st.pending_completion_requests ++ [(request_id, session)] ∧
    (∀ r, syncResponse = some r →
      (create_completion_request_async session request_id syncResponse st).2 =
        [Ev.pop_pending request_id true] ∧
      (create_completion_request_async session request_id syncResponse
          st).1.pending_completion_requests =
        st.pending_completion_requests) ∧
    ∀ alive : Session → Bool, alive session = true →
      Ev.cancel_request session.name request_id false ∈
        (cancel_async alive
          (create_completion_request_async session request_id none st).1).2 := by
  have hfilter : st.pending_completion_requests.filter
      (fun p => p.1 != request_id) = st.pending_completion_requests := by
    rw [List.filter_eq_self]
    intro p hp
    simpa using hfresh p hp
  refine ⟨rfl, ?_, ?_⟩
  · intro r hr
    subst hr
    constructor
    · simp [create_completion_request_async, on_completion_response_async,
        List.any_append]
    · simp [create_completion_request_async, on_completion_response_async,
        List.filter_append, hfilter]
  · intro alive halive
    simp only [create_completion_request_async, cancel_async,
      cancel_pending_requests_async, resolve_task_async_pending]
    apply List.mem_append_right
    apply List.mem_map.mpr
    refine ⟨(request_id, session), ?_, rfl⟩
    apply List.mem_filter.mpr
    exact ⟨List.mem_append_right _ (List.mem_singleton.mpr rfl),
      by simpa using halive⟩

/-- Witness for C3 on a fresh task: after dispatch the pending map holds
the new request id. -/
theorem c3_register_before_continuation_witness :
    (∀ p ∈ initialTaskState.pending_completion_requests, p.1 ≠ 5) ∧
    (create_completion_request_async sessW 5 none
        initialTaskState).1.pending_completion_requests =
      initialTaskState.pending_completion_requests ++ [(5, sessW)] :=
  ⟨by simp [initialTaskState],
    (c3_register_before_continuation sessW 5 none initialTaskState
      (by simp [initialTaskState])).1⟩

/-! ## C7: errors are collected, never abort the merge -/

theorem processResponse_items (cfg : TaskConfig) (acc : MergeAcc)
    (r : ResolvedCompletions) :
    (processResponse cfg acc r).items = acc.items ++ sessionItemsOf cfg r := by
  rcases r with ⟨ro, ws⟩
  cases ro with
  | inl resp =>
    cases ws with
    | none => simp [processResponse, sessionItemsOf]
    | some s => simp [processResponse, sessionItemsOf]
  | inr e => simp [processResponse, sessionItemsOf]

theorem processResponse_errors (cfg : TaskConfig) (acc : MergeAcc)
    (r : ResolvedCompletions) :
    (processResponse cfg acc r).errors = acc.errors ++ errorsOf [r] := by
  rcases r with ⟨ro, ws⟩
  cases ro with
  | inl resp =>
    cases ws with
    | none => simp [processResponse, errorsOf]
    | some s => simp [processResponse, errorsOf]
  | inr e => simp [processResponse, errorsOf]

theorem processResponses_items (cfg : TaskConfig)
    (rs : List ResolvedCompletions) :
    ∀ acc : MergeAcc, (processResponses cfg acc rs).items =
      acc.items ++ (rs.map (sessionItemsOf cfg)).flatten := by
  induction rs with
  | nil => intro acc; simp [processResponses]
  | cons r rs ih =>
    intro acc
    simp [processResponses, ih, processResponse_items, List.append_assoc]

theorem processResponses_errors (cfg : TaskConfig)
    (rs : List ResolvedCompletions) :
    ∀ acc : MergeAcc, (processResponses cfg acc rs).errors =
      acc.errors ++ errorsOf rs := by
  induction rs with
  | nil => intro acc; simp [processResponses, errorsOf]
  | cons r rs ih =>
    intro acc
    simp only [processResponses, ih, processResponse_errors]
    rcases r with ⟨ro, ws⟩
    cases ro <;> simp [errorsOf, List.append_assoc]

/-- C7: the merge collects every per-session error instead of aborting:
the delivered item list is the concatenation of every successful
still-alive session's formatted items, independent of the errors, and the
emitted trace carries exactly one combined status message joining every
error's text when at least one error was collected (and none otherwise),
followed by the single callback delivery. -/
theorem c7_errors_never_abort (cfg : TaskConfig)
    (responses : List ResolvedCompletions) (st : TaskState)
    (h : st.resolved = false) :
    (mergeAcc cfg responses).errors = errorsOf responses ∧
    mergedItems cfg responses = (responses.map (sessionItemsOf cfg)).flatten ∧
    (resolve_completions_async cfg responses st).2 =
      (if (errorsOf responses).isEmpty then ([] : List Ev) else
        [Ev.status_message ("Completion error: " ++
          String.intercalate ", " ((errorsOf responses).map Error.message))]) ++
      [Ev.on_done (mergedItems cfg responses) (mergedFlags cfg responses)] := by
  have herr : (mergeAcc cfg responses).errors = errorsOf responses := by
    simpa [mergeAcc] using processResponses_errors cfg responses _
  refine ⟨herr, ?_, ?_⟩
  · simpa [mergedItems, mergeAcc] using processResponses_items cfg responses _
  · simp [resolve_completions_async, h, herr, resolve_task_async]

/-- Witness for C7 on a mixed error/success response list. -/
theorem c7_errors_never_abort_witness :
    initialTaskState.resolved = false ∧
    (mergeAcc cfgW respsW).errors = errorsOf respsW :=
  ⟨rfl, (c7_errors_never_abort cfgW respsW initialTaskState rfl).1⟩

/-! ## C10: formatted indices point into the full sorted cached list -/

theorem dictGet_dictSet_self (m : List (String × List CompletionItem))
    (k : String) (v : List CompletionItem) :
    dictGet (dictSet m k v) k = some v := by
  unfold dictGet dictSet
  rw [List.find?_append]
  have h1 : (m.filter (fun p => p.1 != k)).find? (fun p => p.1 == k) = none := by
    rw [List.find?_eq_none]
    intro x hx
    have hx2 := (List.mem_filter.mp hx).2
    simp only [bne_iff_ne, ne_eq] at hx2
    simp [hx2]
  rw [h1]
  simp

theorem dictGet_dictSet_ne (m : List (String × List CompletionItem))
    (k : String) (v : List CompletionItem) (k2 : String) (h : k2 ≠ k) :
    dictGet (dictSet m k v) k2 = dictGet m k2 := by
  unfold dictGet dictSet
  rw [List.find?_append]
  have hk : (k == k2) = false := beq_eq_false_iff_ne.mpr (Ne.symm h)
  have h2 : List.find? (fun p => p.1 == k2) [(k, v)] = none := by
    simp [List.find?_cons, hk]
  have h3 : (m.filter (fun p => p.1 != k)).find? (fun p => p.1 == k2) =
      m.find? (fun p => p.1 == k2) := by
    induction m with
    | nil => rfl
    | cons p ps ih =>
      by_cases hp : p.1 = k
      · simp [List.filter_cons, hp, List.find?_cons, hk, ih]
      · by_cases hq : p.1 = k2
        · simp [List.filter_cons, hp, hq, List.find?_cons, h]
        · simp [List.filter_cons, hp, hq, List.find?_cons, ih]
  rw [h2, h3]
  cases m.find? (fun p => p.1 == k2) <;> rfl

theorem okSessionNames_cons_ok (resp : CompletionResponse) (session : Session)
    (rs : List ResolvedCompletions) :
    okSessionNames ((Sum.inl resp, some session) :: rs) =
      session.name :: okSessionNames rs := by
  simp [okSessionNames, List.filterMap_cons]

theorem formatSession_lookup (cfg : TaskConfig) (session : Session)
    (l : List CompletionItem) (fi : FormattedItem)
    (hfi : fi ∈ formatSession cfg session l) :
    fi.sessionName = session.name ∧ l[fi.index]? = some fi.item := by
  unfold formatSession at hfi
  obtain ⟨p, hp, hfe⟩ := List.mem_map.mp hfi
  obtain ⟨i, it⟩ := p
  have hmem : (i, it) ∈ l.enum := (List.mem_filter.mp hp).1
  have hget : l[i]? = some it := List.mk_mem_enum_iff_getElem?.mp hmem
  subst hfe
  exact ⟨rfl, hget⟩

theorem processResponses_lookup_invariant (cfg : TaskConfig) :
    ∀ (rs : List ResolvedCompletions) (acc : MergeAcc),
      (∀ fi ∈ acc.items,
        lspResolveDocsLookup acc.cache fi.sessionName fi.index = some fi.item) →
      (∀ fi ∈ acc.items, fi.sessionName ∉ okSessionNames rs) →
      (okSessionNames rs).Nodup →
      ∀ fi ∈ (processResponses cfg acc rs).items,
        lspResolveDocsLookup (processResponses cfg acc rs).cache
          fi.sessionName fi.index = some fi.item := by
  intro rs
  induction rs with
  | nil =>
    intro acc h1 _ _ fi hfi
    exact h1 fi hfi
  | cons r rs ih =>
    intro acc h1 h2 h3
    rcases r with ⟨ro, ws⟩
    cases ro with
    | inr e =>
      have hnames : okSessionNames ((Sum.inr e, ws) :: rs) = okSessionNames rs := by
        simp [okSessionNames, List.filterMap_cons]
      rw [hnames] at h2 h3
      intro fi hfi
      refine ih { acc with errors := acc.errors ++ [e] } ?_ ?_ h3 fi ?_
      · intro fj hfj; exact h1 fj hfj
      · intro fj hfj; exact h2 fj hfj
      · simpa [processResponses, processResponse] using hfi
    | inl resp =>
      cases ws with
      | none =>
        have hnames : okSessionNames ((Sum.inl resp, none) :: rs) =
            okSessionNames rs := by
          simp [okSessionNames, List.filterMap_cons]
        rw [hnames] at h2 h3
        intro fi hfi
        refine ih acc h1 h2 h3 fi ?_
        simpa [processResponses, processResponse] using hfi
      | some session =>
        rw [okSessionNames_cons_ok] at h2 h3
        have hnotin : session.name ∉ okSessionNames rs :=
          (List.nodup_cons.mp h3).1
        have h3' : (okSessionNames rs).Nodup := (List.nodup_cons.mp h3).2
        intro fi hfi
        simp only [processResponses] at hfi ⊢
        refine ih (processResponse cfg acc (Sum.inl resp, some session))
          ?_ ?_ h3' fi hfi
        · -- the invariant survives one successful step
          intro fj hfj
          simp only [processResponse, List.mem_append] at hfj
          rcases hfj with hfj | hfj
          · have hne : fj.sessionName ≠ session.name := by
              intro he
              exact h2 fj hfj (by rw [he]; exact List.mem_cons_self _ _)
            have hold := h1 fj hfj
            simpa [processResponse, lspResolveDocsLookup,
              dictGet_dictSet_ne _ _ _ _ hne] using hold
          · have hlook := formatSession_lookup cfg session
              (pySorted (responseItemsOf resp)) fj hfj
            simp [processResponse, lspResolveDocsLookup, hlook.1,
              dictGet_dictSet_self, hlook.2]
        · -- upcoming names never touch already-delivered items
          intro fj hfj
          simp only [processResponse, List.mem_append] at hfj
          rcases hfj with hfj | hfj
          · exact fun hmem => h2 fj hfj (List.mem_cons_of_mem _ hmem)
          · have hlook := formatSession_lookup cfg session
              (pySorted (responseItemsOf resp)) fj hfj
            rw [hlook.1]
            exact hnotin

/-- C10: every formatted item's carried index is its position in the full
per-session sorted list stored in the resolve cache — not its position in
the snippet-filtered output — so the `LspResolveDocsCommand` lookup by
(session name, index) returns exactly the raw entry the formatted item was
built from, provided the contributing sessions have distinct names. -/
theorem c10_index_into_full_sorted_cache (cfg : TaskConfig)
    (responses : List ResolvedCompletions)
    (h : (okSessionNames responses).Nodup) :
    ∀ fi ∈ mergedItems cfg responses,
      lspResolveDocsLookup (mergedCache cfg responses) fi.sessionName fi.index =
        some fi.item := by
  intro fi hfi
  exact processResponses_lookup_invariant cfg responses
    { items := [], errors := [], flags := initFlags cfg.prefs, cache := [] }
    (by intro fj hfj; cases hfj)
    (by intro fj hfj; cases hfj)
    h fi hfi

/-- Witness for C10: in the while-typing configuration the snippet entry at
sorted position 0 is dropped, yet the surviving entry carries index 1 and
the cache lookup at `("srv", 1)` returns exactly its raw entry. -/
theorem c10_index_into_full_sorted_cache_witness :
    (okSessionNames respsW).Nodup ∧
    lspResolveDocsLookup (mergedCache cfgW respsW)
      (format_completion itemSortB 1 true "srv" 7).sessionName
      (format_completion itemSortB 1 true "srv" 7).index =
      some (format_completion itemSortB 1 true "srv" 7).item :=
  ⟨by decide,
    c10_index_into_full_sorted_cache cfgW respsW (by decide)
      (format_completion itemSortB 1 true "srv" 7) (by decide)⟩
